import Mathlib

/-!
# Verification of the specials-agent pipelines

Shallow embedding of the watchlist-matching, offer-normalisation, reporting
and logging logic of the specials-agent repository
(`src/main.py`, `src/email_parser.py`, `src/pdf_parser.py`,
`src/specials_checker.py`), together with theorems settling the
specification claims about it.

Modelling conventions:
* Python strings are Lean `String`s; Python's per-code-point operations
  (`str.lower`, substring `in`, `str.split`, `str.strip`) are modelled over
  `String.data` (the list of code points).  `str.lower` and the `\d`/`\s`
  regex classes are modelled on their ASCII behaviour, which is what the
  scraped grocery data exercises.
* Python floats are modelled as rationals (`ℚ`); JSON values as `PyVal`.
* Raising an exception is modelled with `Except`/`Option`; functions with
  external effects (file appends, SMTP) are modelled as pure functions from
  their inputs (including the prior file contents) to the produced data.
-/

/-- Python's `str.lower()`: per-code-point lowercasing (ASCII range). -/
def pyLower (s : String) : String := ⟨s.data.map Char.toLower⟩

/-- Python's substring test `needle in hay`, over code points:
`needle` occurs contiguously somewhere in `hay` (the empty string occurs
in every string, as in Python). -/
def strContains (hay needle : String) : Bool :=
  (List.range (hay.data.length + 1)).any
    (fun i => needle.data.isPrefixOf (hay.data.drop i))

/-- The inner loop of `find_matches` (src/main.py lines 154-157):
`for term in watchlist: if term.lower() in lower_item: ...; break`. -/
def matchesAnyTerm (lowerItem : String) : List String → Bool
  | [] => false
  | term :: rest =>
    if strContains lowerItem (pyLower term) then true
    else matchesAnyTerm lowerItem rest

/-- `find_matches` from src/main.py lines 134-158 (the function of the same
name in src/email_parser.py lines 211-228 is textually identical): scan the
items in order, appending an item to the result when some watchlist term's
lowercasing occurs in the item's lowercasing, breaking out of the inner loop
after the first matching term so the item is appended at most once. -/
def find_matches (items watchlist : List String) : List String :=
  match items with
  | [] => []
  | item :: rest =>
    if matchesAnyTerm (pyLower item) watchlist
    then item :: find_matches rest watchlist
    else find_matches rest watchlist

/-- A Python/JSON value as the RapidAPI product records carry them
(src/specials_checker.py).  The textual repr of numbers and containers
(only reachable through `pyStr`, and exercised by no claim) is abstracted. -/
inductive PyVal where
  | none
  | num (q : ℚ)
  | str (s : String)
  | bool (b : Bool)
  | list (xs : List PyVal)
  | dict (d : List (String × PyVal))

/-- Python truthiness of a value: `None`, `0`, `""`, `False` and empty
containers are falsy, everything else truthy. -/
def PyVal.truthy : PyVal → Bool
  | .none => false
  | .num q => decide (q ≠ 0)
  | .str s => decide (s ≠ "")
  | .bool b => b
  | .list xs => !xs.isEmpty
  | .dict d => !d.isEmpty

/-- A Python dict with string keys (one binding per key). -/
abbrev PyDict := List (String × PyVal)

/-- Python `raw.get(k)`: the stored value, `None` when the key is missing. -/
def pyGet (raw : PyDict) (k : String) : PyVal := (raw.lookup k).getD .none

/-- Python `a or b`: `a` when `a` is truthy, otherwise `b`. -/
def pyOr (a b : PyVal) : PyVal := if a.truthy then a else b

/-- Digits to the natural number they denote. -/
def digitsToNat (ds : List Char) : ℕ :=
  ds.foldl (fun n c => 10 * n + (c.toNat - '0'.toNat)) 0

/-- Numeric-string subset of Python `float(s)`: plain `digits` or
`digits.digits` forms (the shapes JSON price strings take); anything else
raises, modelled as `Option.none`. -/
def parseDecimal (s : String) : Option ℚ :=
  let ds := s.data.takeWhile Char.isDigit
  let rest := s.data.dropWhile Char.isDigit
  if ds.isEmpty then Option.none
  else
    match rest with
    | [] => some (digitsToNat ds)
    | d :: fs =>
      if d = '.' ∧ fs ≠ [] ∧ fs.all Char.isDigit
      then some (digitsToNat ds + (digitsToNat fs : ℚ) / (10 ^ fs.length))
      else Option.none

/-- Python `float(v)`; `Option.none` models the `TypeError`/`ValueError`
raised on non-convertible values. -/
def pyFloat : PyVal → Option ℚ
  | .num q => some q
  | .bool b => some (if b then 1 else 0)
  | .str s => parseDecimal s
  | .none => Option.none
  | .list _ => Option.none
  | .dict _ => Option.none

/-- Python `str(v)`.  Reprs of numbers and containers are abstracted:
no claim concerns a non-string title/size/url value. -/
def pyStr : PyVal → String
  | .str s => s
  | .none => "None"
  | .bool b => if b then "True" else "False"
  | .num q => toString q
  | .list _ => "<list>"
  | .dict _ => "<dict>"

/-- The `Offer` dataclass of src/specials_checker.py lines 68-77.  `size` is
always the string the normalisers store (`str(size)` or `""`). -/
structure Offer where
  watch_name : String
  store : String
  product_title : String
  price : ℚ
  size : String
  url : String
  was_price : Option ℚ := Option.none
  is_half_price : Bool := false
deriving DecidableEq, Repr

/-- Title fallback chain of `normalise_coles_product` (lines 183-188,
without the final default). -/
def colesTitleFields (raw : PyDict) : PyVal :=
  pyOr (pyOr (pyGet raw "name") (pyGet raw "productName")) (pyGet raw "ProductName")

/-- Price fallback chain of `normalise_coles_product` (lines 190-194). -/
def colesPriceChain (raw : PyDict) : PyVal :=
  pyOr (pyOr (pyGet raw "currentPrice") (pyGet raw "price")) (pyGet raw "CurrentPrice")

/-- Title fallback chain of `normalise_woolies_product` (lines 247-253,
without the final default). -/
def wooliesTitleFields (raw : PyDict) : PyVal :=
  pyOr (pyOr (pyOr (pyOr (pyGet raw "name") (pyGet raw "productName"))
    (pyGet raw "ProductName")) (pyGet raw "description")) (pyGet raw "Description")

/-- Price fallback chain of `normalise_woolies_product` (lines 256-260). -/
def wooliesPriceChain (raw : PyDict) : PyVal :=
  pyOr (pyOr (pyOr (pyGet raw "currentPrice") (pyGet raw "price"))
    (pyGet raw "CurrentPrice")) (pyGet raw "Price")

/-- "was" price fallback chain, identical in both normalisers
(lines 199-204 and 266-271). -/
def wasChain (raw : PyDict) : PyVal :=
  pyOr (pyOr (pyOr (pyGet raw "wasPrice") (pyGet raw "WasPrice"))
    (pyGet raw "originalPrice")) (pyGet raw "PreviousPrice")

/-- Size fallback chain, identical in both normalisers (lines 207-212 and
274-279). -/
def sizeChain (raw : PyDict) : PyVal :=
  pyOr (pyOr (pyOr (pyGet raw "size") (pyGet raw "Size"))
    (pyGet raw "packageSize")) (pyGet raw "PackageSize")

/-- URL fallback chain, identical in both normalisers (lines 214-220 and
281-287, without the final `""` default). -/
def urlChain (raw : PyDict) : PyVal :=
  pyOr (pyOr (pyOr (pyGet raw "url") (pyGet raw "Url"))
    (pyGet raw "productUrl")) (pyGet raw "ProductUrl")

/-- `was_price = float(was_val) if was_val not in (None, "") else None`
(lines 205 and 272): `None` and `""` give no was-price, anything else is
converted by `float`, which may raise. -/
def wasPriceConv (raw : PyDict) : Except String (Option ℚ) :=
  match wasChain raw with
  | .none => .ok Option.none
  | .str "" => .ok Option.none
  | v =>
    match pyFloat v with
    | some w => .ok (some w)
    | Option.none => .error "float: could not convert was price"

/-- `if was_price: is_half_price = price <= was_price / 2 + 0.01`
(lines 222-224 and 289-291); note the truthiness test, under which a `0.0`
was-price leaves the flag `False`. -/
def halfPriceFlag (price : ℚ) (was_price : Option ℚ) : Bool :=
  match was_price with
  | some w => if w = 0 then false else decide (price ≤ w / 2 + 1/100)
  | Option.none => false

/-- Body shared verbatim by `normalise_coles_product` and
`normalise_woolies_product` after their title/price chains: the `None`
check and float conversion of the price, the was-price conversion, the
size and url defaults and the half-price flag. -/
def normaliseProductCore (watch_name store defaultTitle noPriceMsg : String)
    (titleFields price_val : PyVal) (raw : PyDict) : Except String Offer :=
  match price_val with
  | .none => .error noPriceMsg
  | pv =>
    match pyFloat pv with
    | Option.none => .error "float: could not convert price"
    | some price =>
      match wasPriceConv raw with
      | .error e => .error e
      | .ok was_price =>
        .ok { watch_name := watch_name
              store := store
              product_title := pyStr (pyOr titleFields (.str defaultTitle))
              price := price
              size := match sizeChain raw with | .none => "" | v => pyStr v
              url := pyStr (pyOr (urlChain raw) (.str ""))
              was_price := was_price
              is_half_price := halfPriceFlag price was_price }

/-- `normalise_coles_product` from src/specials_checker.py lines 174-235;
raising `ValueError` is modelled as `Except.error`. -/
def normalise_coles_product (watch_name : String) (raw : PyDict) : Except String Offer :=
  normaliseProductCore watch_name "Coles" "Unknown Coles product"
    "No price field found in Coles product"
    (colesTitleFields raw) (colesPriceChain raw) raw

/-- `normalise_woolies_product` from src/specials_checker.py lines 238-302. -/
def normalise_woolies_product (watch_name : String) (raw : PyDict) : Except String Offer :=
  normaliseProductCore watch_name "Woolworths" "Unknown Woolworths product"
    "No price field found in Woolies product"
    (wooliesTitleFields raw) (wooliesPriceChain raw) raw

/-- A Coles record whose was-price field is present but `0.0` and whose
price is `0.01`. -/
def zeroWasRaw : PyDict := [("currentPrice", PyVal.num (1/100)), ("PreviousPrice", PyVal.num 0)]

/-- The offer `normalise_coles_product` produces from `zeroWasRaw`. -/
def zeroWasOffer : Offer :=
  { watch_name := "w", store := "Coles", product_title := "Unknown Coles product",
    price := 1/100, size := "", url := "", was_price := some 0, is_half_price := false }

/-- A Coles record with price `2` and was-price `3.99`: within the `0.01`
tolerance of half price, but strictly above `3.99 / 2`. -/
def tolCexRaw : PyDict := [("currentPrice", PyVal.num 2), ("wasPrice", PyVal.num (399/100))]

/-- The offer `normalise_coles_product` produces from `tolCexRaw`. -/
def tolCexOffer : Offer :=
  { watch_name := "w", store := "Coles", product_title := "Unknown Coles product",
    price := 2, size := "", url := "", was_price := some (399/100), is_half_price := true }

/-- The `WatchItem` dataclass (src/specials_checker.py lines 61-65). -/
structure WatchItem where
  name : String
  match_keywords : List String
  only_half_price : Bool := false

/-- `isinstance(v, list)` refinement used by
`extract_products_from_response`. -/
def asPyList : PyVal → Option (List PyVal)
  | .list xs => some xs
  | _ => Option.none

/-- `extract_products_from_response` (src/specials_checker.py lines
148-167): the first of `results`/`data`/`products` that is a list, else the
data itself when a list, else the dict wrapped in a list, else `[]`. -/
def extract_products_from_response (data : PyVal) : List PyVal :=
  match data with
  | .dict d =>
    match asPyList (pyGet d "results") with
    | some xs => xs
    | Option.none =>
      match asPyList (pyGet d "data") with
      | some xs => xs
      | Option.none =>
        match asPyList (pyGet d "products") with
        | some xs => xs
        | Option.none => [.dict d]
  | .list xs => xs
  | _ => []

/-- `normalise_coles_product(watch_item.name, raw)` on an arbitrary JSON
record: on a non-dict record `raw.get` raises `AttributeError` at once. -/
def recordToColesOffer (wn : String) : PyVal → Except String Offer
  | .dict d => normalise_coles_product wn d
  | _ => .error "AttributeError: no attribute get"

/-- `normalise_woolies_product(watch_item.name, raw)` on an arbitrary JSON
record. -/
def recordToWooliesOffer (wn : String) : PyVal → Except String Offer
  | .dict d => normalise_woolies_product wn d
  | _ => .error "AttributeError: no attribute get"

/-- The `for raw in ...: offers.append(...)` loop inside a `try` block
(lines 314-319): offers appended before the first exception stay appended;
the rest of the loop body is abandoned when an exception is raised. -/
def collectUntilError (f : PyVal → Except String Offer) : List PyVal → List Offer
  | [] => []
  | r :: rs =>
    match f r with
    | .ok o => o :: collectUntilError f rs
    | .error _ => []

/-- One store's `try` block for one keyword (lines 313-319 and 321-327):
a failing search contributes nothing, a successful search contributes the
offers normalised before the first normalisation failure.  The search
oracle stands for the network call `search_coles`/`search_woolies`. -/
def pairOffers (search : String → Except Unit PyVal)
    (f : PyVal → Except String Offer) (kw : String) : List Offer :=
  match search kw with
  | .error _ => []
  | .ok data => collectUntilError f (extract_products_from_response data)

/-- The offers accumulated by the keyword loop of
`find_offers_for_watch_item` (lines 310-327), before the half-price
restriction. -/
def accumulatedOffers (sC sW : String → Except Unit PyVal) (wi : WatchItem) : List Offer :=
  wi.match_keywords.flatMap (fun kw =>
    pairOffers sC (recordToColesOffer wi.name) kw
      ++ pairOffers sW (recordToWooliesOffer wi.name) kw)

/-- `find_offers_for_watch_item` (src/specials_checker.py lines 309-332),
parametrised by the two search oracles. -/
def find_offers_for_watch_item (sC sW : String → Except Unit PyVal)
    (wi : WatchItem) : List Offer :=
  let offers := accumulatedOffers sC sW wi
  if wi.only_half_price then offers.filter (fun o => o.is_half_price) else offers

/-- Written from claim C6's words, for comparison with the code: a
(store, keyword) pair contributes its offers only when its search and all
of its normalisations succeed; a pair that raises anywhere contributes
nothing. -/
def pairOffersAllOrNothing (search : String → Except Unit PyVal)
    (f : PyVal → Except String Offer) (kw : String) : List Offer :=
  match search kw with
  | .error _ => []
  | .ok data =>
    let rs := extract_products_from_response data
    if rs.all (fun r => (f r).isOk) then rs.filterMap (fun r => (f r).toOption)
    else []

/-- Written from claim C6's words: the offers of all fully succeeded
(store, keyword) pairs. -/
def offersFromSucceededPairs (sC sW : String → Except Unit PyVal)
    (wi : WatchItem) : List Offer :=
  wi.match_keywords.flatMap (fun kw =>
    pairOffersAllOrNothing sC (recordToColesOffer wi.name) kw
      ++ pairOffersAllOrNothing sW (recordToWooliesOffer wi.name) kw)

/-- Spec-side reformulation of one pair's contribution: the longest prefix
of records that normalise successfully, mapped to their offers. -/
def pairOffersUptoFailure (search : String → Except Unit PyVal)
    (f : PyVal → Except String Offer) (kw : String) : List Offer :=
  match search kw with
  | .error _ => []
  | .ok data =>
    let rs := extract_products_from_response data
    (rs.takeWhile (fun r => (f r).isOk)).filterMap (fun r => (f r).toOption)

/-- Spec-side reformulation of the accumulation: per keyword, the Coles
prefix-of-successes followed by the Woolworths one. -/
def accumulatedOffersSpec (sC sW : String → Except Unit PyVal)
    (wi : WatchItem) : List Offer :=
  wi.match_keywords.flatMap (fun kw =>
    pairOffersUptoFailure sC (recordToColesOffer wi.name) kw
      ++ pairOffersUptoFailure sW (recordToWooliesOffer wi.name) kw)

/-- A record that normalises successfully into `goodOffer`. -/
def goodRecord : PyVal :=
  .dict [("name", PyVal.str "Tim Tam"), ("currentPrice", PyVal.num 2),
         ("wasPrice", PyVal.num 5)]

/-- A record with no price field: normalising it raises. -/
def badRecord : PyVal := .dict [("name", PyVal.str "Broken")]

/-- The offer `normalise_coles_product` produces from `goodRecord`. -/
def goodOffer : Offer :=
  { watch_name := "tt", store := "Coles", product_title := "Tim Tam",
    price := 2, size := "", url := "", was_price := some 5, is_half_price := true }

/-- Search oracle answering every Coles keyword search with
`[goodRecord, badRecord]` — the second record makes the pair fail after
one offer was appended. -/
def cexSearchC : String → Except Unit PyVal := fun _ => .ok (.list [goodRecord, badRecord])

/-- Search oracle whose every search raises. -/
def cexSearchW : String → Except Unit PyVal := fun _ => .error ()

/-- Watch item with one keyword and no half-price restriction. -/
def cexWatch : WatchItem := { name := "tt", match_keywords := ["tim tam"] }

/-- Coles oracle answering every search with `[goodRecord]`. -/
def halfSearchC : String → Except Unit PyVal := fun _ => .ok (.list [goodRecord])

/-- Watch item with one keyword and the half-price restriction set. -/
def halfWatch : WatchItem :=
  { name := "tt", match_keywords := ["tim tam"], only_half_price := true }

/-- A Coles record carrying a name and an integral price. -/
def namedRaw : PyDict := [("name", PyVal.str "X"), ("currentPrice", PyVal.num 3)]

/-- The offer `normalise_coles_product` produces from `namedRaw`. -/
def namedOffer : Offer :=
  { watch_name := "w", store := "Coles", product_title := "X",
    price := 3, size := "", url := "", was_price := Option.none, is_half_price := false }

/-- Python `"=" * 60`, the separator bar both loggers write. -/
def eqBar : String := String.mk (List.replicate 60 '=')

/-- The outwardly observable outcome of one `send_email_alert` call
(src/main.py lines 160-228): console prints, `_append_to_log` appends, and
the email sent as (subject, sender, recipient, body) — `Option.none` when
no email goes out. -/
structure AlertOutcome where
  printed : List String
  logAppends : List String
  emailSent : Option (String × String × String × String)
deriving DecidableEq, Repr

/-- Python truthiness of the `log_file: str = None` argument: `None` and
`""` are falsy. -/
def optStrTruthy : Option String → Bool
  | some s => decide (s ≠ "")
  | Option.none => false

/-- `total = sum(len(v) for v in store_matches.values())` (line 175). -/
def totalMatches (store_matches : List (String × List String)) : ℕ :=
  (store_matches.map (fun p => p.2.length)).sum

/-- The email body lines (lines 186-191): for each store with items, the
store header then one indented line per item. -/
def alertBodyLines (store_matches : List (String × List String)) : List String :=
  store_matches.flatMap (fun p =>
    if p.2.isEmpty then []
    else (p.1 ++ ":") :: p.2.map (fun i => "  - " ++ i))

/-- `send_email_alert` (src/main.py lines 160-228), with the module-level
`EMAIL_USER`/`EMAIL_TO` configuration passed as arguments. -/
def send_email_alert (emailUser emailTo : String)
    (store_matches : List (String × List String))
    (scrape_test : Bool) (log_file : Option String) : AlertOutcome :=
  let total := totalMatches store_matches
  if total = 0 then
    { printed := ["No matches found; no email sent."],
      logAppends :=
        if scrape_test && optStrTruthy log_file
        then ["No matches found; no email sent."] else [],
      emailSent := Option.none }
  else
    let body := String.intercalate "\n" (alertBodyLines store_matches)
    if scrape_test then
      let output_text := String.intercalate "\n"
        ["\n" ++ eqBar, "SCRAPE TEST MODE - Email Preview:", eqBar,
         "Subject: Coles/Woolworths Sale Alert",
         "From: " ++ emailUser, "To: " ++ emailTo, "", body, eqBar,
         "[SCRAPE TEST] Would have sent email with " ++ toString total
           ++ " match(es).", ""]
      { printed := [output_text],
        logAppends := if optStrTruthy log_file then [output_text] else [],
        emailSent := Option.none }
    else
      { printed := ["Sent email with " ++ toString total ++ " match(es)."],
        logAppends := [],
        emailSent := some ("Coles/Woolworths Sale Alert", emailUser, emailTo, body) }

/-- A product record as `CataloguePDF.parse_products` builds them
(src/pdf_parser.py lines 166-179): name, price, the full line, and the
optional save/discount annotations. -/
structure PdfProduct where
  name : String
  price : String
  text : String
  save : Option String := Option.none
  discount : Option String := Option.none
deriving DecidableEq, Repr

/-- The `  - name @ price` lines `save_results_to_log` writes for one
catalogue's matches (src/pdf_parser.py lines 387-388). -/
def renderCatalogueLines : List PdfProduct → String
  | [] => ""
  | m :: ms => "  - " ++ m.name ++ " @ " ++ m.price ++ "\n" ++ renderCatalogueLines ms

/-- The per-catalogue blocks `save_results_to_log` writes
(lines 385-389). -/
def renderResultsBlocks : List (String × List PdfProduct) → String
  | [] => ""
  | p :: ps => p.1 ++ ":\n" ++ renderCatalogueLines p.2 ++ "\n" ++ renderResultsBlocks ps

/-- All the text one `save_results_to_log` call writes (lines 379-389),
given the timestamp string it formats. -/
def renderResultsLog (results : List (String × List PdfProduct)) (ts : String) : String :=
  "\n" ++ eqBar ++ "\n" ++ "PDF Parsing Results - " ++ ts ++ "\n" ++ eqBar ++ "\n\n"
    ++ renderResultsBlocks results

/-- `save_results_to_log` (src/pdf_parser.py lines 371-393) as a transformer
of the log file's contents: `open(log_file, 'a')` appends the rendered
results after whatever the file already holds. -/
def save_results_to_log (logContents : String)
    (results : List (String × List PdfProduct)) (ts : String) : String :=
  logContents ++ renderResultsLog results ts

/-- `_append_to_log` (src/main.py lines 68-80) as a transformer of the log
file's contents, given the timestamp string it formats. -/
def _append_to_log (logContents ts message : String) : String :=
  logContents ++ "\n[" ++ ts ++ "]\n" ++ message ++ "\n"

/-- A concrete matched PDF product. -/
def timTamProd : PdfProduct :=
  { name := "Tim Tam", price := "$5.00", text := "Tim Tam $5.00" }

/-- One catalogue with one matched product, for the logging theorems. -/
def pdfCexResults : List (String × List PdfProduct) :=
  [("coles_catalogue", [timTamProd])]

/-- A store-matches map with two stores and zero matches overall. -/
def zeroMatches : List (String × List String) := [("Coles", []), ("Woolworths", [])]

/-- The characters Python's `\s` class and `str.strip()` treat as
whitespace (ASCII range: space, tab, newline, carriage return, vertical
tab, form feed). -/
def isWs (c : Char) : Bool :=
  c = ' ' || c = '\t' || c = '\n' || c = '\r'
    || c = Char.ofNat 11 || c = Char.ofNat 12

/-- Python `text.split(c)` for a one-character separator: keeps empty
pieces and always yields at least one piece. -/
def splitOnChar (c : Char) : List Char → List (List Char)
  | [] => [[]]
  | x :: xs =>
    let r := splitOnChar c xs
    if x = c then [] :: r
    else
      match r with
      | [] => [[x]]
      | l :: ls => (x :: l) :: ls

/-- The price regex `\$\s*(\d+)\.(\d{2})` (src/pdf_parser.py line 137)
matched at the head of `l` (`\d` modelled on ASCII digits): on success the
two digit groups and the remaining characters after the match. -/
def matchPriceAt : List Char → Option ((List Char × List Char) × List Char)
  | [] => Option.none
  | c :: rest =>
    if c = '$' then
      let afterWs := rest.dropWhile isWs
      let ds := afterWs.takeWhile Char.isDigit
      if ds.isEmpty then Option.none
      else
        match afterWs.dropWhile Char.isDigit with
        | d :: d1 :: d2 :: rest3 =>
          if d = '.' && d1.isDigit && d2.isDigit then some ((ds, [d1, d2]), rest3)
          else Option.none
        | _ => Option.none
    else Option.none

/-- `price_pattern.search(line)`: the groups of the leftmost match. -/
def searchPrice : List Char → Option (List Char × List Char)
  | [] => Option.none
  | c :: cs =>
    match matchPriceAt (c :: cs) with
    | some (g, _) => some g
    | Option.none => searchPrice cs

/-- `price_pattern.sub('', line)`: scan left to right, dropping every
(non-overlapping) price match and continuing after it.  (A price match
consumes at least the dollar sign, so the rest is shorter.) -/
def subPrice : List Char → List Char
  | [] => []
  | c :: cs =>
    match h : matchPriceAt (c :: cs) with
    | some (_, rest) => subPrice rest
    | Option.none => c :: subPrice cs
termination_by l => l.length
decreasing_by
  · simp only [matchPriceAt] at h
    split at h
    · split at h
      · exact absurd h (by simp)
      · split at h
        · rename_i d d1 d2 rest3 heq
          split at h
          · simp only [Option.some.injEq, Prod.mk.injEq] at h
            obtain ⟨-, hrest⟩ := h
            subst hrest
            have h1 : ((fs.dropWhile isWs).dropWhile Char.isDigit).length
                ≤ (fs.dropWhile isWs).length := (List.dropWhile_sublist _).length_le
            have h2 : (fs.dropWhile isWs).length ≤ fs.length :=
              (List.dropWhile_sublist _).length_le
            rw [heq] at h1
            simp only [List.length_cons] at h1
            simp only [List.length_cons]
            omega
          · exact absurd h (by simp)
        · exact absurd h (by simp)
    · exact absurd h (by simp)
  · simp only [List.length_cons]
    exact Nat.lt_succ_self _

/-- Python `s.strip()` (both ends, default whitespace). -/
def stripWs (l : List Char) : List Char :=
  ((l.dropWhile isWs).reverse.dropWhile isWs).reverse

/-- Python `s.strip('•-*→')`: strip any of the given characters from both
ends. -/
def stripEnds (bad : List Char) (l : List Char) : List Char :=
  ((l.dropWhile (bad.contains ·)).reverse.dropWhile (bad.contains ·)).reverse

/-- `re.sub(r'\s+', ' ', s)`: collapse every whitespace run to one space. -/
def collapseWs : List Char → List Char
  | [] => []
  | c :: cs =>
    if isWs c then ' ' :: collapseWs (cs.dropWhile isWs)
    else c :: collapseWs cs
termination_by l => l.length
decreasing_by
  · simp only [List.length_cons]
    exact Nat.lt_succ_of_le ((List.dropWhile_sublist isWs).length_le)
  · simp only [List.length_cons]
    exact Nat.lt_succ_self _

/-- The save regex `[Ss]ave\s+\$\s*(\d+\.?\d*)` (line 138) matched at the
head of `l`: on success its digit group. -/
def matchSaveAt : List Char → Option (List Char)
  | c :: a :: v :: e :: rest1 =>
    if (c = 'S' || c = 's') && a = 'a' && v = 'v' && e = 'e' then
      if (rest1.takeWhile isWs).isEmpty then Option.none
      else
        match rest1.dropWhile isWs with
        | d :: rest2 =>
          if d = '$' then
            let afterWs := rest2.dropWhile isWs
            let ds := afterWs.takeWhile Char.isDigit
            if ds.isEmpty then Option.none
            else
              match afterWs.dropWhile Char.isDigit with
              | p :: rest4 =>
                if p = '.' then some (ds ++ '.' :: rest4.takeWhile Char.isDigit)
                else some ds
              | [] => some ds
          else Option.none
        | [] => Option.none
    else Option.none
  | _ => Option.none

/-- `save_pattern.search(line)`: the group of the leftmost match. -/
def searchSave : List Char → Option (List Char)
  | [] => Option.none
  | c :: cs =>
    match matchSaveAt (c :: cs) with
    | some g => some g
    | Option.none => searchSave cs

/-- The discount regex `(\d+)%\s+[Oo]ff` (line 139) matched at the head of
`l`: on success its digit group. -/
def matchPercentAt (l : List Char) : Option (List Char) :=
  let ds := l.takeWhile Char.isDigit
  if ds.isEmpty then Option.none
  else
    match l.dropWhile Char.isDigit with
    | pc :: rest1 =>
      if pc = '%' then
        if (rest1.takeWhile isWs).isEmpty then Option.none
        else
          match rest1.dropWhile isWs with
          | o :: f1 :: f2 :: _ =>
            if (o = 'O' || o = 'o') && f1 = 'f' && f2 = 'f' then some ds
            else Option.none
          | _ => Option.none
      else Option.none
    | [] => Option.none

/-- `percentage_pattern.search(line)`: the group of the leftmost match. -/
def searchPercent : List Char → Option (List Char)
  | [] => Option.none
  | c :: cs =>
    match matchPercentAt (c :: cs) with
    | some g => some g
    | Option.none => searchPercent cs

/-- The body of the line loop of `parse_products` (src/pdf_parser.py lines
146-181): skip short lines, require a price match, build the product name
by deleting the price matches and cleaning, and keep it only when longer
than three characters. -/
def parseLine (line0 : List Char) : Option PdfProduct :=
  let line := stripWs line0
  if line.isEmpty || line.length < 3 then Option.none
  else
    match searchPrice line with
    | Option.none => Option.none
    | some (g1, g2) =>
      let price := '$' :: (g1 ++ '.' :: g2)
      let name1 := stripWs (subPrice line)
      let name2 := collapseWs name1
      let name := stripEnds ['•', '-', '*', '→'] name2
      if name.isEmpty || ¬ (3 < name.length) then Option.none
      else
        some { name := ⟨name⟩, price := ⟨price⟩, text := ⟨line⟩,
               save := (searchSave line).map (fun g => ⟨'$' :: g⟩),
               discount := (searchPercent line).map (fun g => ⟨g ++ ['%']⟩) }

/-- The products of `parse_products` in line order, before deduplication
(lines 141-181). -/
def rawProducts (text : String) : List PdfProduct :=
  (splitOnChar '\n' text.data).filterMap parseLine

/-- The `(p['name'].lower(), p['price'])` dedup key (line 187). -/
def dedupKey (p : PdfProduct) : String × String :=
  (pyLower p.name, p.price)

/-- The `seen`-set loop removing duplicate keys while preserving order
(lines 183-190); the set is modelled as the list of keys seen so far. -/
def dedupProducts : List PdfProduct → List (String × String) → List PdfProduct
  | [], _ => []
  | p :: ps, seen =>
    if dedupKey p ∈ seen then dedupProducts ps seen
    else p :: dedupProducts ps (dedupKey p :: seen)

/-- `CataloguePDF.parse_products` (src/pdf_parser.py lines 125-195) as a
function of the extracted text. -/
def parse_products (text : String) : List PdfProduct :=
  dedupProducts (rawProducts text) []

/-- Extracted text with a duplicated (lowercased name, price) pair. -/
def pdfText : String := "tim tam $5.00\ntim tam  $5.00\nmilk $2.00"

/-- First parsed product of `pdfText`. -/
def timtamParsed : PdfProduct :=
  { name := "tim tam", price := "$5.00", text := "tim tam $5.00" }

/-- Third parsed product of `pdfText` (the second is a key-duplicate of
the first). -/
def milkParsed : PdfProduct :=
  { name := "milk", price := "$2.00", text := "milk $2.00" }

/-- Python string comparison `a < b`: lexicographic on code points. -/
def charListLt : List Char → List Char → Bool
  | [], [] => false
  | [], _ :: _ => true
  | _ :: _, [] => false
  | a :: as, b :: bs =>
    if a < b then true
    else if b < a then false
    else charListLt as bs

/-- Python `a < b` on strings. -/
def strLt (a b : String) : Bool := charListLt a.data b.data

/-- `≤` on the Python sort key `(o.store, o.price)` used by
`sorted(offers, key=lambda o: (o.store, o.price))`
(src/specials_checker.py line 343): lexicographic tuple comparison. -/
def offerKeyLe (a b : Offer) : Bool :=
  strLt a.store b.store
    || (decide (a.store = b.store) && decide (a.price ≤ b.price))

/-- `offers_sorted = sorted(offers, key=lambda o: (o.store, o.price))`
(line 343); `mergeSort` is stable, like Python's sort. -/
def sortOffers (offers : List Offer) : List Offer := offers.mergeSort offerKeyLe

/-- One step of the cheapest-by-store loop (lines 346-349): a new store is
appended (dict insertion order), an existing store's entry is replaced in
place only by a strictly cheaper offer. -/
def updateCheapest (d : List (String × Offer)) (o : Offer) : List (String × Offer) :=
  match d.lookup o.store with
  | Option.none => d ++ [(o.store, o)]
  | some cur =>
    if o.price < cur.price
    then d.map (fun p => if p.1 = o.store then (p.1, o) else p)
    else d

/-- The `cheapest_by_store` dict after the loop over the sorted offers
(lines 346-349), as an insertion-ordered association list. -/
def cheapestByStore (offers : List Offer) : List (String × Offer) :=
  offers.foldl updateCheapest []

/-- Round half to even to an integer — the rounding of Python's float
formatting, idealised over ℚ. -/
def roundHalfEven (x : ℚ) : ℤ :=
  let f := ⌊x⌋
  if x - f < 1/2 then f
  else if 1/2 < x - f then f + 1
  else if f % 2 = 0 then f else f + 1

/-- Two-digit rendering of `k < 100`. -/
def twoDigits (k : ℕ) : String := (if k < 10 then "0" else "") ++ toString k

/-- Python `f"{x:.2f}"` on a rational. -/
def fmt2 (q : ℚ) : String :=
  let n := roundHalfEven (q * 100)
  (if n < 0 then "-" else "") ++ toString (n.natAbs / 100) ++ "."
    ++ twoDigits (n.natAbs % 100)

/-- One offer line of the report (lines 351-359); note the truthiness
tests: a `0.0` was-price prints no `(was ...)` and an empty size/url
prints nothing. -/
def renderOfferLine (o : Offer) : String :=
  let was_str :=
    match o.was_price with
    | some w => if w ≠ 0 then "(was $" ++ fmt2 w ++ ")" else ""
    | Option.none => ""
  let half_str := if o.is_half_price then " [HALF PRICE?]" else ""
  let size_str := if o.size ≠ "" then " – " ++ o.size else ""
  let url_str := if o.url ≠ "" then " – " ++ o.url else ""
  "- " ++ o.store ++ ": " ++ o.product_title ++ " – $" ++ fmt2 o.price ++ " "
    ++ was_str ++ half_str ++ size_str ++ url_str

/-- Python `min(offers, key=lambda o: o.price)`: the first offer of
minimum price (ties keep the earlier element). -/
def minByPrice : List Offer → Option Offer
  | [] => Option.none
  | o :: os => some (os.foldl (fun m x => if x.price < m.price then x else m) o)

/-- The `**Cheapest overall:**` line (line 363). -/
def renderCheapestLine (o : Offer) : String :=
  "**Cheapest overall:** " ++ o.store ++ " at $" ++ fmt2 o.price

/-- The lines `build_report` appends for one watch item (lines 337-365). -/
def buildItemBlock (watch_name : String) (offers : List Offer) : List String :=
  ("## " ++ watch_name) ::
    (if offers.isEmpty then ["No matching products or specials found.\n"]
     else
       let sorted := sortOffers offers
       let cbs := cheapestByStore sorted
       sorted.map renderOfferLine
         ++ (if 2 ≤ cbs.length then
               match minByPrice (cbs.map Prod.snd) with
               | some m => [renderCheapestLine m]
               | Option.none => []
             else [])
         ++ [""])

/-- `build_report` (src/specials_checker.py lines 335-367): the per-item
blocks joined by newlines. -/
def build_report (all_offers : List (String × List Offer)) : String :=
  String.intercalate "\n" (all_offers.flatMap (fun p => buildItemBlock p.1 p.2))

/-- A two-store offer list for the report theorems. -/
def reportOffers : List Offer :=
  [{ watch_name := "x", store := "Woolworths", product_title := "B",
     price := 3, size := "", url := "" },
   { watch_name := "x", store := "Coles", product_title := "A",
     price := 4, size := "", url := "" }]

theorem matchesAnyTerm_eq_any (lowerItem : String) (wl : List String) :
    matchesAnyTerm lowerItem wl
      = wl.any (fun term => strContains lowerItem (pyLower term)) := by
  induction wl with
  | nil => rfl
  | cons t ts ih =>
    simp only [matchesAnyTerm, List.any_cons, ih]
    cases h : strContains lowerItem (pyLower t) <;> simp [h]

/-- C1: `find_matches` returns exactly those items whose lowercased text
contains at least one lowercased watchlist keyword, in input order, each
input item occurrence added at most once (the list filter keeps one output
occurrence per input occurrence, in order). -/
theorem find_matches_filter_spec (items watchlist : List String) :
    find_matches items watchlist
      = items.filter
          (fun item => watchlist.any
            (fun term => strContains (pyLower item) (pyLower term))) := by
  induction items with
  | nil => rfl
  | cons item rest ih =>
    simp [find_matches, List.filter_cons, matchesAnyTerm_eq_any, ih]

theorem normaliseProductCore_ok_elim
    (wn st dt msg : String) (tf pv : PyVal) (raw : PyDict) (o : Offer)
    (h : normaliseProductCore wn st dt msg tf pv raw = Except.ok o) :
    ∃ price was_price, pyFloat pv = some price
      ∧ wasPriceConv raw = Except.ok was_price
      ∧ o = { watch_name := wn, store := st,
              product_title := pyStr (pyOr tf (.str dt)),
              price := price,
              size := match sizeChain raw with | .none => "" | v => pyStr v,
              url := pyStr (pyOr (urlChain raw) (.str "")),
              was_price := was_price,
              is_half_price := halfPriceFlag price was_price } := by
  have finish :
      ∀ price : ℚ, pyFloat pv = some price →
        (match wasPriceConv raw with
          | Except.error e => Except.error e
          | Except.ok was_price =>
            Except.ok { watch_name := wn, store := st,
                        product_title := pyStr (pyOr tf (.str dt)),
                        price := price,
                        size := match sizeChain raw with | .none => "" | v => pyStr v,
                        url := pyStr (pyOr (urlChain raw) (.str "")),
                        was_price := was_price,
                        is_half_price := halfPriceFlag price was_price }) = Except.ok o →
        ∃ price was_price, pyFloat pv = some price
          ∧ wasPriceConv raw = Except.ok was_price
          ∧ o = { watch_name := wn, store := st,
                  product_title := pyStr (pyOr tf (.str dt)),
                  price := price,
                  size := match sizeChain raw with | .none => "" | v => pyStr v,
                  url := pyStr (pyOr (urlChain raw) (.str "")),
                  was_price := was_price,
                  is_half_price := halfPriceFlag price was_price } := by
    intro price hpf hmatch
    cases hw : wasPriceConv raw with
    | error e => rw [hw] at hmatch; exact absurd hmatch (by simp)
    | ok was =>
      rw [hw] at hmatch
      simp only [Except.ok.injEq] at hmatch
      exact ⟨price, was, hpf, rfl, hmatch.symm⟩
  cases pv with
  | none => exact absurd h (by simp [normaliseProductCore])
  | list xs => exact absurd h (by simp [normaliseProductCore, pyFloat])
  | dict d => exact absurd h (by simp [normaliseProductCore, pyFloat])
  | num q =>
    simp only [normaliseProductCore, pyFloat] at h
    exact finish q rfl h
  | bool b =>
    simp only [normaliseProductCore, pyFloat] at h
    exact finish (if b then 1 else 0) rfl h
  | str s =>
    simp only [normaliseProductCore, pyFloat] at h
    cases hp : parseDecimal s with
    | none => rw [hp] at h; exact absurd h (by simp)
    | some price =>
      rw [hp] at h
      exact finish price (by simp [pyFloat, hp]) h

theorem normaliseProductCore_halfprice_iff
    (wn st dt msg : String) (tf pv : PyVal) (raw : PyDict) (o : Offer)
    (h : normaliseProductCore wn st dt msg tf pv raw = Except.ok o) :
    (o.is_half_price = true
      ↔ ∃ w, o.was_price = some w ∧ w ≠ 0 ∧ o.price ≤ w / 2 + 1/100) := by
  obtain ⟨price, was, _, _, rfl⟩ := normaliseProductCore_ok_elim wn st dt msg tf pv raw o h
  simp only [halfPriceFlag]
  cases was with
  | none => simp
  | some w =>
    by_cases hw0 : w = 0
    · subst hw0; simp
    · simp [hw0]

theorem zeroWasRaw_eval : normalise_coles_product "w" zeroWasRaw = Except.ok zeroWasOffer := by
  simp [normalise_coles_product, normaliseProductCore, zeroWasRaw, zeroWasOffer,
    colesTitleFields, colesPriceChain, wasChain, sizeChain, urlChain, wasPriceConv,
    pyGet, pyOr, PyVal.truthy, pyFloat, pyStr, halfPriceFlag, List.lookup]

theorem tolCexRaw_eval : normalise_coles_product "w" tolCexRaw = Except.ok tolCexOffer := by
  simp [normalise_coles_product, normaliseProductCore, tolCexRaw, tolCexOffer,
    colesTitleFields, colesPriceChain, wasChain, sizeChain, urlChain, wasPriceConv,
    pyGet, pyOr, PyVal.truthy, pyFloat, pyStr, halfPriceFlag, List.lookup]
  norm_num

/-- C2 (amended): for every Offer produced by `normalise_coles_product` or
`normalise_woolies_product`, the derived `is_half_price` flag is true iff a
"was" price is present AND NONZERO and the price is at most half the "was"
price plus the 0.01 tolerance; when no "was" price is present — or when it
is zero, which the code's truthiness test treats like absence — the flag is
false. -/
theorem offer_half_price_iff (wn : String) (raw : PyDict) (o : Offer)
    (h : normalise_coles_product wn raw = Except.ok o ∨
         normalise_woolies_product wn raw = Except.ok o) :
    (o.is_half_price = true
      ↔ ∃ w, o.was_price = some w ∧ w ≠ 0 ∧ o.price ≤ w / 2 + 1/100) := by
  rcases h with h | h
  · exact normaliseProductCore_halfprice_iff _ _ _ _ _ _ _ _ h
  · exact normaliseProductCore_halfprice_iff _ _ _ _ _ _ _ _ h

/-- C2 witness: the characterisation applied to the concrete offer built
from `zeroWasRaw`. -/
theorem offer_half_price_iff_witness :
    (zeroWasOffer.is_half_price = true
      ↔ ∃ w, zeroWasOffer.was_price = some w ∧ w ≠ 0
          ∧ zeroWasOffer.price ≤ w / 2 + 1/100) :=
  offer_half_price_iff "w" zeroWasRaw zeroWasOffer (Or.inl zeroWasRaw_eval)

/-- C2 counterexample: on a record with was-price present but `0.0` and
price `0.01 ≤ 0/2 + 0.01`, the claim demands a true flag, yet the code
leaves it false. -/
theorem half_price_zero_was_counterexample :
    normalise_coles_product "w" zeroWasRaw = Except.ok zeroWasOffer
      ∧ zeroWasOffer.was_price = some 0
      ∧ zeroWasOffer.price ≤ 0 / 2 + 1/100
      ∧ zeroWasOffer.is_half_price = false :=
  ⟨zeroWasRaw_eval, rfl, by norm_num [zeroWasOffer], rfl⟩

/-- C3 (amended): an Offer flagged half-price satisfies
`price ≤ was_price / 2 + 0.01` — the tolerance version the spec's data
model states — not the exact `price ≤ was_price / 2`. -/
theorem half_price_tolerance (wn : String) (raw : PyDict) (o : Offer) (w : ℚ)
    (h : normalise_coles_product wn raw = Except.ok o ∨
         normalise_woolies_product wn raw = Except.ok o)
    (hf : o.is_half_price = true) (hw : o.was_price = some w) :
    o.price ≤ w / 2 + 1/100 := by
  have hiff : o.is_half_price = true
      ↔ ∃ w', o.was_price = some w' ∧ w' ≠ 0 ∧ o.price ≤ w' / 2 + 1/100 := by
    rcases h with h | h
    · exact normaliseProductCore_halfprice_iff _ _ _ _ _ _ _ _ h
    · exact normaliseProductCore_halfprice_iff _ _ _ _ _ _ _ _ h
  obtain ⟨w', hw', _, hle⟩ := hiff.mp hf
  rw [hw] at hw'
  obtain rfl : w = w' := by injection hw'
  exact hle

/-- C3 witness: the tolerance bound applied to the concrete offer built
from `tolCexRaw`. -/
theorem half_price_tolerance_witness :
    tolCexOffer.price ≤ (399/100 : ℚ) / 2 + 1/100 :=
  half_price_tolerance "w" tolCexRaw tolCexOffer (399/100) (Or.inl tolCexRaw_eval) rfl rfl

/-- C3 counterexample: price `2`, was-price `3.99` is flagged half-price
(it is within the 0.01 tolerance) although `2 > 3.99 / 2`, refuting the
exact-halving reading. -/
theorem exact_half_counterexample :
    normalise_coles_product "w" tolCexRaw = Except.ok tolCexOffer
      ∧ tolCexOffer.is_half_price = true
      ∧ tolCexOffer.was_price = some (399/100)
      ∧ ¬ (tolCexOffer.price ≤ (399/100 : ℚ) / 2) :=
  ⟨tolCexRaw_eval, rfl, rfl, by norm_num [tolCexOffer]⟩

theorem goodRecord_eval : recordToColesOffer "tt" goodRecord = Except.ok goodOffer := by
  simp [recordToColesOffer, goodRecord, goodOffer, normalise_coles_product,
    normaliseProductCore, colesTitleFields, colesPriceChain, wasChain, sizeChain,
    urlChain, wasPriceConv, pyGet, pyOr, PyVal.truthy, pyFloat, pyStr, halfPriceFlag,
    List.lookup]
  norm_num

theorem badRecord_eval :
    recordToColesOffer "tt" badRecord
      = Except.error "No price field found in Coles product" := by
  simp [recordToColesOffer, badRecord, normalise_coles_product, normaliseProductCore,
    colesTitleFields, colesPriceChain, wasChain, sizeChain, urlChain, wasPriceConv,
    pyGet, pyOr, PyVal.truthy, pyFloat, pyStr, halfPriceFlag, List.lookup]

/-- C4: when `only_half_price` is set every returned offer carries a true
half-price flag; when it is unset the restriction removes nothing — the
result is exactly the accumulated offer list. -/
theorem only_half_price_restriction (sC sW : String → Except Unit PyVal) (wi : WatchItem) :
    (wi.only_half_price = true →
      ∀ o ∈ find_offers_for_watch_item sC sW wi, o.is_half_price = true)
    ∧ (wi.only_half_price = false →
      find_offers_for_watch_item sC sW wi = accumulatedOffers sC sW wi) := by
  constructor
  · intro hf o ho
    unfold find_offers_for_watch_item at ho
    rw [hf] at ho
    simp only [if_true] at ho
    exact (List.mem_filter.mp ho).2
  · intro hf
    unfold find_offers_for_watch_item
    rw [hf]
    simp

/-- C4 witness: with the restriction set and a concrete half-price offer
coming back from the Coles oracle, the returned offer is flagged. -/
theorem only_half_price_restriction_witness : goodOffer.is_half_price = true :=
  (only_half_price_restriction halfSearchC cexSearchW halfWatch).1 rfl goodOffer
    (by
      simp [find_offers_for_watch_item, accumulatedOffers, halfWatch, pairOffers,
        halfSearchC, cexSearchW, extract_products_from_response, asPyList,
        collectUntilError, goodRecord_eval, goodOffer])

theorem collectUntilError_eq_takeWhile (f : PyVal → Except String Offer) (rs : List PyVal) :
    collectUntilError f rs
      = (rs.takeWhile (fun r => (f r).isOk)).filterMap (fun r => (f r).toOption) := by
  induction rs with
  | nil => rfl
  | cons r rs ih =>
    cases hfr : f r <;>
      simp [collectUntilError, hfr, List.takeWhile_cons, ih, Except.toOption, Except.isOk, Except.toBool]

/-- C6 (amended): `find_offers_for_watch_item` always returns normally, and
(without the half-price restriction) its result is exactly, keyword by
keyword, the offers of the longest successfully-normalised prefix of the
Coles pair followed by those of the Woolworths pair — a failed search
contributes nothing, but offers accumulated before a pair's first failure
are kept rather than discarded. -/
theorem find_offers_partial_accumulation (sC sW : String → Except Unit PyVal)
    (wi : WatchItem) (hf : wi.only_half_price = false) :
    find_offers_for_watch_item sC sW wi = accumulatedOffersSpec sC sW wi := by
  unfold find_offers_for_watch_item
  rw [hf]
  simp only [Bool.false_eq_true, if_false]
  unfold accumulatedOffers accumulatedOffersSpec
  refine congrArg _ (funext fun kw => ?_)
  unfold pairOffers pairOffersUptoFailure
  cases sC kw <;> cases sW kw <;> simp [collectUntilError_eq_takeWhile]

/-- C6 witness: the amended statement at the concrete oracles where the
Coles pair fails after one successful normalisation. -/
theorem find_offers_partial_accumulation_witness :
    find_offers_for_watch_item cexSearchC cexSearchW cexWatch
      = accumulatedOffersSpec cexSearchC cexSearchW cexWatch :=
  find_offers_partial_accumulation cexSearchC cexSearchW cexWatch rfl

/-- C6 counterexample: with a pair that raises midway, the function keeps
the offers normalised before the failure, so the result is NOT "exactly the
offers of the (store, keyword) searches that succeeded" — that set is
empty here, yet the result contains `goodOffer`. -/
theorem find_offers_partial_counterexample :
    find_offers_for_watch_item cexSearchC cexSearchW cexWatch = [goodOffer]
      ∧ offersFromSucceededPairs cexSearchC cexSearchW cexWatch = []
      ∧ find_offers_for_watch_item cexSearchC cexSearchW cexWatch
          ≠ offersFromSucceededPairs cexSearchC cexSearchW cexWatch := by
  refine ⟨?_, ?_, ?_⟩
  · simp [find_offers_for_watch_item, accumulatedOffers, cexWatch, pairOffers,
      cexSearchC, cexSearchW, extract_products_from_response, asPyList,
      collectUntilError, goodRecord_eval, badRecord_eval]
  · simp [offersFromSucceededPairs, cexWatch, pairOffersAllOrNothing, cexSearchC,
      cexSearchW, extract_products_from_response, asPyList, goodRecord_eval,
      badRecord_eval, Except.isOk, Except.toBool]
  · intro h
    have h1 : find_offers_for_watch_item cexSearchC cexSearchW cexWatch = [goodOffer] := by
      simp [find_offers_for_watch_item, accumulatedOffers, cexWatch, pairOffers,
        cexSearchC, cexSearchW, extract_products_from_response, asPyList,
        collectUntilError, goodRecord_eval, badRecord_eval]
    have h2 : offersFromSucceededPairs cexSearchC cexSearchW cexWatch = [] := by
      simp [offersFromSucceededPairs, cexWatch, pairOffersAllOrNothing, cexSearchC,
        cexSearchW, extract_products_from_response, asPyList, goodRecord_eval,
        badRecord_eval, Except.isOk, Except.toBool]
    rw [h1, h2] at h
    exact List.noConfusion h

theorem wasPriceConv_error_eq (raw : PyDict) (e : String)
    (h : wasPriceConv raw = Except.error e) :
    e = "float: could not convert was price" := by
  unfold wasPriceConv at h
  split at h
  · exact absurd h (by simp)
  · exact absurd h (by simp)
  · split at h
    · exact absurd h (by simp)
    · injection h with h
      exact h.symm

theorem wasPriceConv_ok_of (raw : PyDict)
    (hw : wasChain raw = PyVal.none ∨ wasChain raw = PyVal.str ""
      ∨ ∃ w, wasChain raw = PyVal.num w) :
    ∃ wp, wasPriceConv raw = Except.ok wp := by
  unfold wasPriceConv
  rcases hw with h | h | ⟨w, h⟩ <;> rw [h] <;> simp [pyFloat]

theorem normaliseProductCore_noPrice_iff (wn st dt msg : String)
    (tf pv : PyVal) (raw : PyDict)
    (hmsg1 : msg ≠ "float: could not convert price")
    (hmsg2 : msg ≠ "float: could not convert was price") :
    (normaliseProductCore wn st dt msg tf pv raw = Except.error msg
      ↔ pv = PyVal.none) := by
  constructor
  · intro h
    by_contra hne
    have hstep : normaliseProductCore wn st dt msg tf pv raw =
        (match pyFloat pv with
         | Option.none => Except.error "float: could not convert price"
         | some price =>
           match wasPriceConv raw with
           | Except.error e => Except.error e
           | Except.ok was_price =>
             Except.ok { watch_name := wn, store := st,
                         product_title := pyStr (pyOr tf (.str dt)),
                         price := price,
                         size := match sizeChain raw with | .none => "" | v => pyStr v,
                         url := pyStr (pyOr (urlChain raw) (.str "")),
                         was_price := was_price,
                         is_half_price := halfPriceFlag price was_price }) := by
      cases pv with
      | none => exact absurd rfl hne
      | num q => rfl
      | str s => rfl
      | bool b => rfl
      | list xs => rfl
      | dict d => rfl
    rw [hstep] at h
    cases hpf : pyFloat pv with
    | none =>
      rw [hpf] at h
      injection h with h
      exact hmsg1 h.symm
    | some price =>
      rw [hpf] at h
      cases hwc : wasPriceConv raw with
      | error e =>
        rw [hwc] at h
        injection h with h
        exact hmsg2 (h ▸ wasPriceConv_error_eq raw e hwc)
      | ok wp =>
        rw [hwc] at h
        exact Except.noConfusion h
  · intro h
    subst h
    rfl

/-- C5 (amended): `normalise_coles_product` raises the "no price field"
error exactly when the price fallback chain
`raw.get("currentPrice") or raw.get("price") or raw.get("CurrentPrice")`
evaluates to `None` — the chain skips falsy values, so a record whose only
price field holds `0`/`0.0` raises even though the field is present; it
returns an Offer whenever the chain yields a number (and the was-chain is
absent, empty or numeric); title and url take the first truthy value of
their fallback chains, with the fixed defaults "Unknown Coles product"
and "" when every candidate is absent or falsy. -/
theorem normalise_coles_field_fallbacks (wn : String) (raw : PyDict) :
    (normalise_coles_product wn raw = Except.error "No price field found in Coles product"
      ↔ colesPriceChain raw = PyVal.none)
    ∧ (∀ q, colesPriceChain raw = PyVal.num q →
        (wasChain raw = PyVal.none ∨ wasChain raw = PyVal.str ""
          ∨ ∃ w, wasChain raw = PyVal.num w) →
        ∃ o, normalise_coles_product wn raw = Except.ok o)
    ∧ (∀ o, normalise_coles_product wn raw = Except.ok o →
        (colesTitleFields raw = PyVal.none → o.product_title = "Unknown Coles product")
        ∧ (urlChain raw = PyVal.none → o.url = "")
        ∧ (∀ s, colesTitleFields raw = PyVal.str s → s ≠ "" → o.product_title = s)) := by
  refine ⟨?_, ?_, ?_⟩
  · exact normaliseProductCore_noPrice_iff wn "Coles" "Unknown Coles product"
      "No price field found in Coles product" (colesTitleFields raw)
      (colesPriceChain raw) raw (by decide) (by decide)
  · intro q hq hw
    unfold normalise_coles_product normaliseProductCore
    rw [hq]
    obtain ⟨wp, hwp⟩ := wasPriceConv_ok_of raw hw
    simp [pyFloat, hwp]
  · intro o ho
    obtain ⟨price, was, _, _, rfl⟩ :=
      normaliseProductCore_ok_elim wn "Coles" "Unknown Coles product"
        "No price field found in Coles product" (colesTitleFields raw)
        (colesPriceChain raw) raw o ho
    refine ⟨?_, ?_, ?_⟩
    · intro ht
      simp [ht, pyOr, PyVal.truthy, pyStr]
    · intro hu
      simp [hu, pyOr, PyVal.truthy, pyStr]
    · intro s hs hne
      simp [hs, pyOr, PyVal.truthy, pyStr, hne]

theorem namedRaw_eval : normalise_coles_product "w" namedRaw = Except.ok namedOffer := by
  simp [normalise_coles_product, normaliseProductCore, namedRaw, namedOffer,
    colesTitleFields, colesPriceChain, wasChain, sizeChain, urlChain, wasPriceConv,
    pyGet, pyOr, PyVal.truthy, pyFloat, pyStr, halfPriceFlag, List.lookup]

/-- C5 witness: on the concrete record `{name: "X", currentPrice: 3}`, the
fallback characterisation gives the offer the title "X". -/
theorem normalise_coles_field_fallbacks_witness : namedOffer.product_title = "X" :=
  (((normalise_coles_field_fallbacks "w" namedRaw).2.2 namedOffer namedRaw_eval).2.2) "X"
    (by simp [colesTitleFields, namedRaw, pyGet, pyOr, PyVal.truthy, List.lookup])
    (by decide)

/-- C5 counterexample: the record `{currentPrice: 0}` contains the price
field `currentPrice`, yet `normalise_coles_product` raises "no price field
found" because the or-chain skips the falsy `0`. -/
theorem coles_price_zero_counterexample :
    pyGet [("currentPrice", PyVal.num 0)] "currentPrice" = PyVal.num 0
      ∧ normalise_coles_product "w" [("currentPrice", PyVal.num 0)]
          = Except.error "No price field found in Coles product" := by
  constructor
  · simp [pyGet, List.lookup]
  · simp [normalise_coles_product, normaliseProductCore, colesTitleFields,
      colesPriceChain, wasChain, sizeChain, urlChain, wasPriceConv, pyGet, pyOr,
      PyVal.truthy, pyFloat, pyStr, halfPriceFlag, List.lookup]

theorem strData_append (a b : String) : (a ++ b).data = a.data ++ b.data := rfl

theorem strContains_of_infix (hay needle : String)
    (h : needle.data <:+: hay.data) : strContains hay needle = true := by
  obtain ⟨s, t, hst⟩ := h
  unfold strContains
  rw [List.any_eq_true]
  refine ⟨s.length, List.mem_range.mpr ?_, ?_⟩
  · have hlen : s.length + needle.data.length + t.length = hay.data.length := by
      rw [← hst]; simp; omega
    omega
  · rw [ List.isPrefixOf_iff_prefix]
    rw [← hst, List.append_assoc, List.drop_left]
    exact List.prefix_append needle.data t

theorem name_infix_renderCatalogueLines (ms : List PdfProduct) (m : PdfProduct)
    (hm : m ∈ ms) : m.name.data <:+: (renderCatalogueLines ms).data := by
  induction ms with
  | nil => cases hm
  | cons x xs ih =>
    rcases List.mem_cons.mp hm with rfl | hm'
    · exact ⟨"  - ".data, (" @ " ++ m.price ++ "\n" ++ renderCatalogueLines xs).data,
        by simp [renderCatalogueLines, strData_append, List.append_assoc]⟩
    · exact (ih hm').trans
        ⟨("  - " ++ x.name ++ " @ " ++ x.price ++ "\n").data, [],
          by simp [renderCatalogueLines, strData_append, List.append_assoc]⟩

theorem catalogue_infix_renderResultsBlocks
    (results : List (String × List PdfProduct)) (p : String × List PdfProduct)
    (hp : p ∈ results) :
    (renderCatalogueLines p.2).data <:+: (renderResultsBlocks results).data := by
  induction results with
  | nil => cases hp
  | cons x xs ih =>
    rcases List.mem_cons.mp hp with rfl | hp'
    · exact ⟨(p.1 ++ ":\n").data, ("\n" ++ renderResultsBlocks xs).data,
        by simp [renderResultsBlocks, strData_append, List.append_assoc]⟩
    · exact (ih hp').trans
        ⟨(x.1 ++ ":\n" ++ renderCatalogueLines x.2 ++ "\n").data, [],
          by simp [renderResultsBlocks, strData_append, List.append_assoc]⟩

/-- C7 (amended): offers, products and matches are held in memory during a
run, but the reporting helpers DO persist extracted/matched data beyond the
invocation: `save_results_to_log` and `_append_to_log` append to the
existing log file contents (preserving them as a prefix), and the appended
text contains every matched product's name, so matched data survives the
run in the log file. -/
theorem log_append_persistence (log ts msg : String)
    (results : List (String × List PdfProduct)) :
    save_results_to_log log results ts = log ++ renderResultsLog results ts
    ∧ _append_to_log log ts msg = log ++ "\n[" ++ ts ++ "]\n" ++ msg ++ "\n"
    ∧ ∀ p ∈ results, ∀ m ∈ p.2,
        strContains (renderResultsLog results ts) m.name = true := by
  refine ⟨rfl, rfl, ?_⟩
  intro p hp m hm
  apply strContains_of_infix
  have h1 := name_infix_renderCatalogueLines p.2 m hm
  have h2 := catalogue_infix_renderResultsBlocks results p hp
  refine (h1.trans h2).trans ?_
  exact ⟨("\n" ++ eqBar ++ "\n" ++ "PDF Parsing Results - " ++ ts ++ "\n" ++ eqBar ++ "\n\n").data,
    [], by simp [renderResultsLog, strData_append, List.append_assoc]⟩

/-- C7 witness: the matched name "Tim Tam" occurs in the text appended for
the concrete results `pdfCexResults`. -/
theorem log_append_persistence_witness :
    strContains (renderResultsLog pdfCexResults "2026-01-01 00:00:00") timTamProd.name = true :=
  (log_append_persistence "" "2026-01-01 00:00:00" "m" pdfCexResults).2.2
    ("coles_catalogue", [timTamProd]) (by simp [pdfCexResults]) timTamProd (by simp)

set_option maxRecDepth 4000 in
/-- C7 counterexample: `save_results_to_log` on one matched product appends
non-empty text containing the matched name to the (here initially empty)
log file — data IS written to a persistent store. -/
theorem pdf_log_persists_counterexample :
    save_results_to_log "" pdfCexResults "2026-01-01 00:00:00" ≠ ""
      ∧ strContains (save_results_to_log "" pdfCexResults "2026-01-01 00:00:00")
          "Tim Tam" = true := by
  constructor
  · decide
  · decide

/-- C10 (amended): with zero matches in total, `send_email_alert` sends no
email and builds no body: it prints exactly the "no matches" notice and —
its only other effect, in scrape-test mode with a truthy log file — appends
that same notice to the log; an email is sent only when the total is at
least one. -/
theorem send_email_alert_zero_total (eu et : String)
    (sm : List (String × List String)) (st : Bool) (lf : Option String) :
    (totalMatches sm = 0 →
      send_email_alert eu et sm st lf =
        { printed := ["No matches found; no email sent."],
          logAppends :=
            if st && optStrTruthy lf
            then ["No matches found; no email sent."] else [],
          emailSent := Option.none })
    ∧ (∀ e, (send_email_alert eu et sm st lf).emailSent = some e →
        1 ≤ totalMatches sm) := by
  constructor
  · intro h
    simp [send_email_alert, h]
  · intro e he
    by_cases h : totalMatches sm = 0
    · simp [send_email_alert, h] at he
    · omega

/-- C10 witness: the zero-total branch at a concrete two-store map with no
matches, in scrape-test mode with a log file. -/
theorem send_email_alert_zero_total_witness :
    send_email_alert "u" "t" zeroMatches true (some "scrape_test.log") =
      { printed := ["No matches found; no email sent."],
        logAppends :=
          if true && optStrTruthy (some "scrape_test.log")
          then ["No matches found; no email sent."] else [],
        emailSent := Option.none } :=
  (send_email_alert_zero_total "u" "t" zeroMatches true (some "scrape_test.log")).1 rfl

/-- C10 counterexample: with zero matches in scrape-test mode with a log
file the call also appends the notice to the log — an effect beyond
printing, refuting the claim's "returns with no other effect". -/
theorem alert_log_effect_counterexample :
    totalMatches zeroMatches = 0
      ∧ (send_email_alert "u" "t" zeroMatches true
          (some "scrape_test.log")).logAppends
          = ["No matches found; no email sent."] := by
  exact ⟨rfl, by simp [send_email_alert, zeroMatches, totalMatches, optStrTruthy]⟩

theorem dedupProducts_sublist (ps : List PdfProduct) (seen : List (String × String)) :
    (dedupProducts ps seen).Sublist ps := by
  induction ps generalizing seen with
  | nil => simp [dedupProducts]
  | cons p ps ih =>
    by_cases h : dedupKey p ∈ seen
    · simp only [dedupProducts, if_pos h]
      exact (ih seen).cons p
    · simp only [dedupProducts, if_neg h]
      exact (ih _).cons₂ p

theorem dedupProducts_key_not_seen (ps : List PdfProduct) (seen : List (String × String)) :
    ∀ q ∈ dedupProducts ps seen, dedupKey q ∉ seen := by
  induction ps generalizing seen with
  | nil => intro q hq; simp [dedupProducts] at hq
  | cons p ps ih =>
    intro q hq
    by_cases h : dedupKey p ∈ seen
    · simp only [dedupProducts, if_pos h] at hq
      exact ih seen q hq
    · simp only [dedupProducts, if_neg h] at hq
      rcases List.mem_cons.mp hq with rfl | hq'
      · exact h
      · intro hmem
        exact ih _ q hq' (List.mem_cons_of_mem _ hmem)

theorem dedupProducts_pairwise (ps : List PdfProduct) (seen : List (String × String)) :
    List.Pairwise (fun a b => dedupKey a ≠ dedupKey b) (dedupProducts ps seen) := by
  induction ps generalizing seen with
  | nil => simp [dedupProducts]
  | cons p ps ih =>
    by_cases h : dedupKey p ∈ seen
    · simp only [dedupProducts, if_pos h]
      exact ih seen
    · simp only [dedupProducts, if_neg h]
      refine List.Pairwise.cons ?_ (ih _)
      intro b hb heq
      exact dedupProducts_key_not_seen ps (dedupKey p :: seen) b hb
        (by rw [← heq]; exact List.mem_cons_self _ _)

theorem dedupProducts_first_occ (ps : List PdfProduct) (seen : List (String × String)) :
    ∀ q ∈ dedupProducts ps seen,
      ps.find? (fun r => decide (dedupKey r = dedupKey q)) = some q := by
  induction ps generalizing seen with
  | nil => intro q hq; simp [dedupProducts] at hq
  | cons p ps ih =>
    intro q hq
    by_cases h : dedupKey p ∈ seen
    · simp only [dedupProducts, if_pos h] at hq
      have hne : dedupKey p ≠ dedupKey q := by
        intro he
        exact dedupProducts_key_not_seen ps seen q hq (he ▸ h)
      have hf : (fun r => decide (dedupKey r = dedupKey q)) p = false := by
        simp [hne]
      simp only [List.find?_cons, hf]
      exact ih seen q hq
    · simp only [dedupProducts, if_neg h] at hq
      rcases List.mem_cons.mp hq with rfl | hq'
      · simp [List.find?_cons]
      · have hne : dedupKey p ≠ dedupKey q := by
          intro he
          exact dedupProducts_key_not_seen ps (dedupKey p :: seen) q hq'
            (by rw [← he]; exact List.mem_cons_self _ _)
        have hf : (fun r => decide (dedupKey r = dedupKey q)) p = false := by
          simp [hne]
        simp only [List.find?_cons, hf]
        exact ih _ q hq'

theorem dedupProducts_covers (ps : List PdfProduct) (seen : List (String × String)) :
    ∀ p ∈ ps, dedupKey p ∈ seen
      ∨ ∃ q ∈ dedupProducts ps seen, dedupKey q = dedupKey p := by
  induction ps generalizing seen with
  | nil => intro p hp; cases hp
  | cons x xs ih =>
    intro p hp
    by_cases h : dedupKey x ∈ seen
    · simp only [dedupProducts, if_pos h]
      rcases List.mem_cons.mp hp with rfl | hp'
      · exact Or.inl h
      · exact ih seen p hp'
    · simp only [dedupProducts, if_neg h]
      rcases List.mem_cons.mp hp with rfl | hp'
      · exact Or.inr ⟨p, List.mem_cons_self _ _, rfl⟩
      · rcases ih (dedupKey x :: seen) p hp' with hmem | ⟨q, hq, hkey⟩
        · rcases List.mem_cons.mp hmem with he | hs
          · exact Or.inr ⟨x, List.mem_cons_self _ _, he.symm⟩
          · exact Or.inl hs
        · exact Or.inr ⟨q, List.mem_cons_of_mem _ hq, hkey⟩

/-- C8: the list `parse_products` returns has no two entries with the same
(lowercased name, price) key; it is a subsequence of the raw line-ordered
products, so the surviving entries appear in their original order; every
raw key is still represented; and each survivor is the FIRST raw
occurrence of its key — duplicates are removed keeping the first. -/
theorem parse_products_dedup (text : String) :
    List.Pairwise (fun a b => dedupKey a ≠ dedupKey b) (parse_products text)
    ∧ (parse_products text).Sublist (rawProducts text)
    ∧ (∀ q ∈ parse_products text,
        (rawProducts text).find? (fun r => decide (dedupKey r = dedupKey q)) = some q)
    ∧ (∀ p ∈ rawProducts text,
        ∃ q ∈ parse_products text, dedupKey q = dedupKey p) := by
  refine ⟨dedupProducts_pairwise _ _, dedupProducts_sublist _ _,
    dedupProducts_first_occ _ _, ?_⟩
  intro p hp
  rcases dedupProducts_covers (rawProducts text) [] p hp with hmem | h
  · exact absurd hmem (List.not_mem_nil _)
  · exact h

theorem subPrice_nil : subPrice [] = [] := by simp [subPrice]

theorem subPrice_cons (c : Char) (cs : List Char) :
    subPrice (c :: cs) =
      match matchPriceAt (c :: cs) with
      | some (_, rest) => subPrice rest
      | Option.none => c :: subPrice cs := by
  rw [subPrice.eq_def]
  split
  · rename_i heq
    exact absurd heq (by simp)
  · rename_i d fs heq
    injection heq with h1 h2
    subst h1
    subst h2
    split <;> rename_i heq2 <;> rw [heq2]

set_option maxHeartbeats 4000000 in
theorem parse_products_pdfText_eval :
    parse_products pdfText = [timtamParsed, milkParsed] := by
  simp [parse_products, rawProducts, pdfText, splitOnChar, parseLine, stripWs, isWs,
    searchPrice, matchPriceAt, subPrice_nil, subPrice_cons, collapseWs, stripEnds,
    searchSave, matchSaveAt, searchPercent, matchPercentAt, dedupProducts, dedupKey,
    pyLower, timtamParsed, milkParsed]

/-- C8 witness: on the concrete text `pdfText` — whose first two lines
share the (lowercased name, price) key — the surviving entry for that key
is the first raw occurrence. -/
theorem parse_products_dedup_witness :
    (rawProducts pdfText).find?
        (fun r => decide (dedupKey r = dedupKey timtamParsed)) = some timtamParsed :=
  (parse_products_dedup pdfText).2.2.1 timtamParsed
    (by rw [parse_products_pdfText_eval]; exact List.mem_cons_self _ _)

theorem charListLt_trans :
    ∀ {as bs cs : List Char}, charListLt as bs = true →
      charListLt bs cs = true → charListLt as cs = true := by
  intro as
  induction as with
  | nil =>
    intro bs cs h1 h2
    cases bs with
    | nil => simp [charListLt] at h1
    | cons b bs' =>
      cases cs with
      | nil => simp [charListLt] at h2
      | cons c cs' => simp [charListLt]
  | cons a as' ih =>
    intro bs cs h1 h2
    cases bs with
    | nil => simp [charListLt] at h1
    | cons b bs' =>
      cases cs with
      | nil => simp [charListLt] at h2
      | cons c cs' =>
        simp only [charListLt] at h1 h2 ⊢
        by_cases hab : a < b
        · by_cases hbc : b < c
          · simp [lt_trans hab hbc]
          · rw [if_neg hbc] at h2
            by_cases hcb : c < b
            · rw [if_pos hcb] at h2
              exact absurd h2 (by simp)
            · have hbc' : b = c := le_antisymm (not_lt.mp hcb) (not_lt.mp hbc)
              subst hbc'
              simp [hab]
        · rw [if_neg hab] at h1
          by_cases hba : b < a
          · rw [if_pos hba] at h1
            exact absurd h1 (by simp)
          · rw [if_neg hba] at h1
            have hab' : a = b := le_antisymm (not_lt.mp hba) (not_lt.mp hab)
            subst hab'
            by_cases hac : a < c
            · simp [hac]
            · rw [if_neg hac] at h2 ⊢
              by_cases hca : c < a
              · rw [if_pos hca] at h2
                exact absurd h2 (by simp)
              · rw [if_neg hca] at h2 ⊢
                exact ih h1 h2

theorem charListLt_connex (as : List Char) :
    ∀ bs : List Char, charListLt as bs = true ∨ charListLt bs as = true ∨ as = bs := by
  induction as with
  | nil =>
    intro bs
    cases bs with
    | nil => exact Or.inr (Or.inr rfl)
    | cons b bs' => exact Or.inl (by simp [charListLt])
  | cons a as' ih =>
    intro bs
    cases bs with
    | nil => exact Or.inr (Or.inl (by simp [charListLt]))
    | cons b bs' =>
      by_cases hab : a < b
      · exact Or.inl (by simp [charListLt, hab])
      · by_cases hba : b < a
        · exact Or.inr (Or.inl (by simp [charListLt, hba]))
        · have hab' : a = b := le_antisymm (not_lt.mp hba) (not_lt.mp hab)
          subst hab'
          rcases ih bs' with h | h | h
          · exact Or.inl (by simp [charListLt, lt_irrefl, h])
          · exact Or.inr (Or.inl (by simp [charListLt, lt_irrefl, h]))
          · exact Or.inr (Or.inr (by rw [h]))

theorem offerKeyLe_trans (a b c : Offer)
    (h1 : offerKeyLe a b = true) (h2 : offerKeyLe b c = true) :
    offerKeyLe a c = true := by
  simp only [offerKeyLe, Bool.or_eq_true, Bool.and_eq_true, decide_eq_true_eq] at h1 h2 ⊢
  rcases h1 with h1 | ⟨hs1, hp1⟩
  · rcases h2 with h2 | ⟨hs2, hp2⟩
    · exact Or.inl (charListLt_trans h1 h2)
    · exact Or.inl (hs2 ▸ h1)
  · rcases h2 with h2 | ⟨hs2, hp2⟩
    · exact Or.inl (hs1 ▸ h2)
    · exact Or.inr ⟨hs1.trans hs2, hp1.trans hp2⟩

theorem offerKeyLe_total (a b : Offer) :
    (offerKeyLe a b || offerKeyLe b a) = true := by
  simp only [offerKeyLe, Bool.or_eq_true, Bool.and_eq_true, decide_eq_true_eq]
  rcases charListLt_connex a.store.data b.store.data with h | h | h
  · exact Or.inl (Or.inl h)
  · exact Or.inr (Or.inl h)
  · have hs : a.store = b.store := by
      apply String.ext
      exact h
    rcases le_total a.price b.price with hp | hp
    · exact Or.inl (Or.inr ⟨hs, hp⟩)
    · exact Or.inr (Or.inr ⟨hs.symm, hp⟩)

theorem lookup_isSome_iff_mem_keys (d : List (String × Offer)) (k : String) :
    (d.lookup k).isSome = true ↔ k ∈ d.map Prod.fst := by
  induction d with
  | nil => simp
  | cons p ps ih =>
    by_cases hk : k = p.1
    · simp [List.lookup_cons, beq_iff_eq, hk]
    · simp [List.lookup_cons, beq_iff_eq, hk, ih]

theorem lookup_eq_of_mem_nodup (d : List (String × Offer)) (k : String) (v : Offer)
    (hnd : (d.map Prod.fst).Nodup) (hm : (k, v) ∈ d) : d.lookup k = some v := by
  induction d with
  | nil => cases hm
  | cons p ps ih =>
    simp only [List.map_cons, List.nodup_cons] at hnd
    rcases List.mem_cons.mp hm with rfl | hm'
    · simp [List.lookup_cons]
    · obtain ⟨p1, p2⟩ := p
      have hk : k ≠ p1 := by
        intro he
        exact hnd.1 (he ▸ (List.mem_map.mpr ⟨(k, v), hm', rfl⟩))
      have hb : (k == p1) = false := by
        simp [hk]
      simp only [List.lookup_cons, hb]
      exact ih hnd.2 hm'

theorem updateCheapest_keys (d : List (String × Offer)) (o : Offer) :
    (updateCheapest d o).map Prod.fst
      = if (d.lookup o.store).isSome then d.map Prod.fst
        else d.map Prod.fst ++ [o.store] := by
  unfold updateCheapest
  split
  · rename_i hnone
    rw [hnone]
    simp
  · rename_i cur hsome
    rw [hsome]
    simp only [Option.isSome_some, if_true]
    split
    · rw [List.map_map]
      exact List.map_congr_left (fun p _ => by
        by_cases hp : p.1 = o.store <;> simp [hp])
    · rfl

theorem cheapestByStore_keys (l : List Offer) :
    ∀ d : List (String × Offer),
      ((l.foldl updateCheapest d).map Prod.fst).toFinset
          = (d.map Prod.fst).toFinset ∪ (l.map (fun o => o.store)).toFinset
      ∧ ((d.map Prod.fst).Nodup → ((l.foldl updateCheapest d).map Prod.fst).Nodup) := by
  induction l with
  | nil => intro d; simp
  | cons o l ih =>
    intro d
    rw [List.foldl_cons]
    rcases ih (updateCheapest d o) with ⟨h1, h2⟩
    constructor
    · rw [h1, updateCheapest_keys]
      split
      · rename_i hs
        rw [lookup_isSome_iff_mem_keys] at hs
        ext x
        simp only [Finset.mem_union, List.mem_toFinset, List.map_cons, List.mem_cons]
        constructor
        · rintro (hx | hx)
          · exact Or.inl hx
          · exact Or.inr (Or.inr hx)
        · rintro (hx | hx | hx)
          · exact Or.inl hx
          · exact Or.inl (hx ▸ hs)
          · exact Or.inr hx
      · ext x
        simp only [Finset.mem_union, List.mem_toFinset, List.mem_append, List.map_cons,
          List.mem_cons, List.mem_singleton]
        tauto
    · intro hnd
      apply h2
      rw [updateCheapest_keys]
      split
      · exact hnd
      · rename_i hs
        refine List.Nodup.append hnd (List.nodup_singleton _) ?_
        rw [List.disjoint_singleton]
        intro hmem
        have h' := (lookup_isSome_iff_mem_keys d o.store).mpr hmem
        rw [h'] at hs
        exact hs rfl

theorem foldl_updateCheapest_inv (l : List Offer) :
    ∀ (d : List (String × Offer)) (seen : List Offer),
      (d.map Prod.fst).Nodup →
      (∀ so ∈ d, so.2 ∈ seen ∧ so.2.store = so.1
        ∧ ∀ o' ∈ seen, o'.store = so.1 → so.2.price ≤ o'.price) →
      (∀ o' ∈ seen, (d.lookup o'.store).isSome = true) →
      ((∀ so ∈ l.foldl updateCheapest d, so.2 ∈ seen ++ l ∧ so.2.store = so.1
          ∧ ∀ o' ∈ seen ++ l, o'.store = so.1 → so.2.price ≤ o'.price)
        ∧ ∀ o' ∈ seen ++ l, ((l.foldl updateCheapest d).lookup o'.store).isSome = true) := by
  induction l with
  | nil =>
    intro d seen hnd hinv hlk
    simp only [List.foldl_nil, List.append_nil]
    exact ⟨hinv, hlk⟩
  | cons o l ih =>
    intro d seen hnd hinv hlk
    rw [List.foldl_cons]
    have step_nd : ((updateCheapest d o).map Prod.fst).Nodup := by
      rw [updateCheapest_keys]
      split
      · exact hnd
      · rename_i hs
        refine List.Nodup.append hnd (List.nodup_singleton _) ?_
        rw [List.disjoint_singleton]
        intro hmem
        have h' := (lookup_isSome_iff_mem_keys d o.store).mpr hmem
        rw [h'] at hs
        exact hs rfl
    have step_lk : ∀ o' ∈ seen ++ [o],
        ((updateCheapest d o).lookup o'.store).isSome = true := by
      intro o' ho'
      rw [lookup_isSome_iff_mem_keys, updateCheapest_keys]
      split
      · rename_i hs
        rcases List.mem_append.mp ho' with ho' | ho'
        · exact (lookup_isSome_iff_mem_keys d o'.store).mp (hlk o' ho')
        · rcases List.mem_singleton.mp ho'
          exact (lookup_isSome_iff_mem_keys d o.store).mp hs
      · rcases List.mem_append.mp ho' with ho' | ho'
        · exact List.mem_append_left _
            ((lookup_isSome_iff_mem_keys d o'.store).mp (hlk o' ho'))
        · rcases List.mem_singleton.mp ho'
          exact List.mem_append_right _ (List.mem_singleton.mpr rfl)
    have step_inv : ∀ so ∈ updateCheapest d o, so.2 ∈ seen ++ [o] ∧ so.2.store = so.1
        ∧ ∀ o' ∈ seen ++ [o], o'.store = so.1 → so.2.price ≤ o'.price := by
      intro so hso
      unfold updateCheapest at hso
      split at hso
      · rename_i heq
        rcases List.mem_append.mp hso with hmem | hmem
        · rcases hinv so hmem with ⟨h1, h2, h3⟩
          refine ⟨List.mem_append_left _ h1, h2, ?_⟩
          intro o' ho' hst
          rcases List.mem_append.mp ho' with ho' | ho'
          · exact h3 o' ho' hst
          · rcases List.mem_singleton.mp ho'
            exfalso
            have hk : so.1 ∈ d.map Prod.fst := List.mem_map.mpr ⟨so, hmem, rfl⟩
            have h' := (lookup_isSome_iff_mem_keys d o.store).mpr (hst ▸ hk)
            rw [heq] at h'
            exact absurd h' (by simp)
        · rcases List.mem_singleton.mp hmem
          refine ⟨List.mem_append_right _ (List.mem_singleton.mpr rfl), rfl, ?_⟩
          intro o' ho' hst
          rcases List.mem_append.mp ho' with ho' | ho'
          · exfalso
            have h' := hlk o' ho'
            rw [show o'.store = o.store from hst] at h'
            rw [heq] at h'
            exact absurd h' (by simp)
          · rcases List.mem_singleton.mp ho'
            exact le_refl _
      · rename_i cur heq
        split at hso
        · rename_i hlt
          rcases List.mem_map.mp hso with ⟨p, hp, hrepl⟩
          by_cases hkey : p.1 = o.store
          · rw [if_pos hkey] at hrepl
            subst hrepl
            have hcur : d.lookup o.store = some p.2 := by
              have hl := lookup_eq_of_mem_nodup d p.1 p.2 hnd
                (by rw [Prod.mk.eta]; exact hp)
              rw [hkey] at hl
              exact hl
            have hcureq : cur = p.2 := by
              rw [heq] at hcur
              exact Option.some.inj hcur
            refine ⟨List.mem_append_right _ (List.mem_singleton.mpr rfl), hkey.symm, ?_⟩
            intro o' ho' hst
            rcases List.mem_append.mp ho' with ho' | ho'
            · have h3 := (hinv p hp).2.2 o' ho' hst
              calc o.price ≤ cur.price := le_of_lt hlt
                _ = p.2.price := by rw [hcureq]
                _ ≤ o'.price := h3
            · rcases List.mem_singleton.mp ho'
              exact le_refl _
          · rw [if_neg hkey] at hrepl
            subst hrepl
            rcases hinv p hp with ⟨h1, h2, h3⟩
            refine ⟨List.mem_append_left _ h1, h2, ?_⟩
            intro o' ho' hst
            rcases List.mem_append.mp ho' with ho' | ho'
            · exact h3 o' ho' hst
            · rcases List.mem_singleton.mp ho'
              exact absurd hst.symm hkey
        · rename_i hnlt
          rcases hinv so hso with ⟨h1, h2, h3⟩
          refine ⟨List.mem_append_left _ h1, h2, ?_⟩
          intro o' ho' hst
          rcases List.mem_append.mp ho' with ho' | ho'
          · exact h3 o' ho' hst
          · rcases List.mem_singleton.mp ho'
            have hcur : d.lookup so.1 = some so.2 :=
              lookup_eq_of_mem_nodup d so.1 so.2 hnd (by rw [Prod.mk.eta]; exact hso)
            rw [← hst, heq] at hcur
            exact (Option.some.inj hcur) ▸ not_lt.mp hnlt
    have hres := ih (updateCheapest d o) (seen ++ [o]) step_nd step_inv step_lk
    rw [List.append_assoc, List.singleton_append] at hres
    exact hres

theorem foldlMin_spec (os : List Offer) :
    ∀ acc : Offer,
      ((os.foldl (fun m x => if x.price < m.price then x else m) acc) = acc
        ∨ (os.foldl (fun m x => if x.price < m.price then x else m) acc) ∈ os)
      ∧ (os.foldl (fun m x => if x.price < m.price then x else m) acc).price ≤ acc.price
      ∧ ∀ x ∈ os, (os.foldl (fun m x => if x.price < m.price then x else m) acc).price
          ≤ x.price := by
  induction os with
  | nil =>
    intro acc
    exact ⟨Or.inl rfl, le_refl _, by intro x hx; cases hx⟩
  | cons y os ih =>
    intro acc
    rw [List.foldl_cons]
    rcases ih (if y.price < acc.price then y else acc) with ⟨h1, h2, h3⟩
    refine ⟨?_, ?_, ?_⟩
    · rcases h1 with h1 | h1
      · rw [h1]
        by_cases hy : y.price < acc.price
        · rw [if_pos hy]
          exact Or.inr (List.mem_cons_self _ _)
        · rw [if_neg hy]
          exact Or.inl rfl
      · exact Or.inr (List.mem_cons_of_mem _ h1)
    · refine le_trans h2 ?_
      by_cases hy : y.price < acc.price
      · rw [if_pos hy]
        exact le_of_lt hy
      · rw [if_neg hy]
    · intro x hx
      rcases List.mem_cons.mp hx with rfl | hx
      · refine le_trans h2 ?_
        by_cases hy : x.price < acc.price
        · rw [if_pos hy]
        · rw [if_neg hy]
          exact not_lt.mp hy
      · exact h3 x hx

theorem minByPrice_spec (l : List Offer) (m : Offer) (h : minByPrice l = some m) :
    m ∈ l ∧ ∀ x ∈ l, m.price ≤ x.price := by
  cases l with
  | nil => simp [minByPrice] at h
  | cons o os =>
    simp only [minByPrice, Option.some.injEq] at h
    subst h
    rcases foldlMin_spec os o with ⟨h1, h2, h3⟩
    constructor
    · rcases h1 with h1 | h1
      · rw [h1]
        exact List.mem_cons_self _ _
      · exact List.mem_cons_of_mem _ h1
    · intro x hx
      rcases List.mem_cons.mp hx with rfl | hx
      · exact h2
      · exact h3 x hx

theorem minByPrice_isSome (l : List Offer) (h : l ≠ []) :
    ∃ m, minByPrice l = some m := by
  cases l with
  | nil => exact absurd rfl h
  | cons o os => exact ⟨_, rfl⟩

/-- C9: for a nonempty offer list, the block `build_report` emits for one
watch item lists the offers sorted ascending by the `(store, price)` key
(a permutation of the input, pairwise in key order); the cheapest-by-store
dict has one entry per distinct store, each entry holding a cheapest offer
of its store; the `**Cheapest overall:**` line is appended iff the offers
come from at least two distinct stores, and it then names a minimum-price
offer among the per-store cheapest offers. -/
theorem build_report_item_spec (name : String) (offers : List Offer) :
    ((sortOffers offers).Perm offers
      ∧ List.Pairwise (fun a b => offerKeyLe a b = true) (sortOffers offers))
    ∧ (cheapestByStore (sortOffers offers)).length
        = (offers.map (fun o => o.store)).toFinset.card
    ∧ (∀ so ∈ cheapestByStore (sortOffers offers),
        so.2 ∈ offers ∧ so.2.store = so.1
          ∧ ∀ o ∈ offers, o.store = so.1 → so.2.price ≤ o.price)
    ∧ (2 ≤ (offers.map (fun o => o.store)).toFinset.card →
        ∃ m, minByPrice ((cheapestByStore (sortOffers offers)).map Prod.snd) = some m
          ∧ buildItemBlock name offers
              = ("## " ++ name)
                  :: ((sortOffers offers).map renderOfferLine
                      ++ [renderCheapestLine m] ++ [""])
          ∧ m ∈ offers
          ∧ (∀ o ∈ offers, o.store = m.store → m.price ≤ o.price)
          ∧ (∀ so ∈ cheapestByStore (sortOffers offers), m.price ≤ so.2.price))
    ∧ (offers ≠ [] → ¬ 2 ≤ (offers.map (fun o => o.store)).toFinset.card →
        buildItemBlock name offers
          = ("## " ++ name) :: ((sortOffers offers).map renderOfferLine ++ [""]))
    ∧ (offers = [] →
        buildItemBlock name offers
          = ["## " ++ name, "No matching products or specials found.\n"]) := by
  have hperm : (sortOffers offers).Perm offers := List.mergeSort_perm offers offerKeyLe
  have hsorted : List.Pairwise (fun a b => offerKeyLe a b = true) (sortOffers offers) :=
    List.sorted_mergeSort (fun a b c => offerKeyLe_trans a b c) offerKeyLe_total offers
  have hkeys0 := cheapestByStore_keys (sortOffers offers) []
  have hnodup : ((cheapestByStore (sortOffers offers)).map Prod.fst).Nodup :=
    hkeys0.2 (by simp)
  have htofin : ((cheapestByStore (sortOffers offers)).map Prod.fst).toFinset
      = ((sortOffers offers).map (fun o => o.store)).toFinset := by
    have h1 := hkeys0.1
    simpa using h1
  have hstores : ((sortOffers offers).map (fun o => o.store)).toFinset
      = (offers.map (fun o => o.store)).toFinset := by
    ext x
    simp only [List.mem_toFinset]
    exact (hperm.map _).mem_iff
  have hlen : (cheapestByStore (sortOffers offers)).length
      = (offers.map (fun o => o.store)).toFinset.card := by
    calc (cheapestByStore (sortOffers offers)).length
        = ((cheapestByStore (sortOffers offers)).map Prod.fst).length :=
          (List.length_map _ _).symm
      _ = ((cheapestByStore (sortOffers offers)).map Prod.fst).toFinset.card :=
          (List.toFinset_card_of_nodup hnodup).symm
      _ = _ := by rw [htofin, hstores]
  have hinv := foldl_updateCheapest_inv (sortOffers offers) [] []
    (by simp) (by simp) (by simp)
  have hcbs : ∀ so ∈ cheapestByStore (sortOffers offers),
      so.2 ∈ offers ∧ so.2.store = so.1
        ∧ ∀ o ∈ offers, o.store = so.1 → so.2.price ≤ o.price := by
    intro so hso
    rcases hinv.1 so hso with ⟨h1, h2, h3⟩
    rw [List.nil_append] at h1
    refine ⟨hperm.mem_iff.mp h1, h2, ?_⟩
    intro o ho hst
    exact h3 o (by rw [List.nil_append]; exact hperm.mem_iff.mpr ho) hst
  refine ⟨⟨hperm, hsorted⟩, hlen, hcbs, ?_, ?_, ?_⟩
  · intro hcard
    have hne : offers ≠ [] := by
      intro hcontra
      subst hcontra
      simp at hcard
    have hie : offers.isEmpty = false := by
      cases offers with
      | nil => exact absurd rfl hne
      | cons a l => rfl
    have hlen2 : 2 ≤ (cheapestByStore (sortOffers offers)).length := hlen ▸ hcard
    have hnonnil : (cheapestByStore (sortOffers offers)).map Prod.snd ≠ [] := by
      intro hcontra
      have : (cheapestByStore (sortOffers offers)).length = 0 := by
        have := congrArg List.length hcontra
        simpa using this
      omega
    obtain ⟨m, hm⟩ := minByPrice_isSome _ hnonnil
    rcases minByPrice_spec _ m hm with ⟨hmmem, hmmin⟩
    rcases List.mem_map.mp hmmem with ⟨so, hso, hsnd⟩
    rcases hcbs so hso with ⟨hso1, hso2, hso3⟩
    refine ⟨m, hm, ?_, ?_, ?_, ?_⟩
    · simp only [buildItemBlock, hie, Bool.false_eq_true, if_false]
      rw [if_pos hlen2, hm]
    · rw [← hsnd]
      exact hso1
    · intro o ho hst
      rw [← hsnd]
      refine hso3 o ho ?_
      rw [hst, ← hsnd, hso2]
    · intro so' hso'
      exact hmmin so'.2 (List.mem_map.mpr ⟨so', hso', rfl⟩)
  · intro hne hcard
    have hie : offers.isEmpty = false := by
      cases offers with
      | nil => exact absurd rfl hne
      | cons a l => rfl
    have hlen2 : ¬ 2 ≤ (cheapestByStore (sortOffers offers)).length := by
      rw [hlen]
      exact hcard
    simp only [buildItemBlock, hie, Bool.false_eq_true, if_false]
    rw [if_neg hlen2]
    simp
  · intro hnil
    subst hnil
    rfl

/-- C9 witness: the per-store-count conjunct at a concrete two-store offer
list. -/
theorem build_report_item_spec_witness :
    (cheapestByStore (sortOffers reportOffers)).length
      = (reportOffers.map (fun o => o.store)).toFinset.card
    ∧ buildItemBlock "x" [] = ["## x", "No matching products or specials found.\n"] :=
  ⟨(build_report_item_spec "x" reportOffers).2.1,
    (build_report_item_spec "x" []).2.2.2.2.2 rfl⟩
